import Mathlib

/-!
Shallow embedding of the Rivet analysis `GbiasInvestigatr`
(src/GbiasInvestigatr.cc) and verification of its specification.

The C++ `double` values are modelled by an arbitrary linear ordered field
`K` (instantiated at `ℝ` with `Real.pi` for the claims); the member
`std::map<std::string,double> _toWrite` is modelled by a key-sorted
association list with `std::map` insertion and iteration semantics; the
output file `_file` is modelled as the list of lines written so far.
-/

namespace GbiasInvestigatr

/-- A reconstructed jet, as read by the analysis: transverse momentum,
pseudorapidity and azimuthal angle (`j.momentum().pT()`, `.eta()`, `.phi()`). -/
structure Jet (K : Type) where
  pT : K
  eta : K
  phi : K

/-- The heavy-ion metadata read from the event's H line
(`event.genEvent()->heavy_ion()`). -/
structure HeavyIon (K : Type) where
  event_plane_angle : K
  eccentricity : K

/-- One input event as seen by `analyze`: optional heavy-ion metadata, the
jets delivered by the `FastJets` projection (before the `jetsByPt` cuts and
sorting), and the event weights. -/
structure Event (K : Type) where
  hion : Option (HeavyIon K)
  jets : List (Jet K)
  weights : List K

/-- A line of the output file: either the header of field names printed by
`print(true)` or a row of field values printed by `print()`. -/
inductive Line (K : Type) where
  | header : List String → Line K
  | row : List K → Line K

/-- The analysis object's mutable state: `_open` / `_file.is_open()`, the
number of `[WARNING]` messages issued, the lines written to `_file`,
`_eventNumber`, `_firstPrint`, and the member map `_toWrite`. -/
structure AnalysisState (K : Type) where
  _open : Bool
  warnings : Nat
  _file : List (Line K)
  _eventNumber : Int
  _firstPrint : Bool
  _toWrite : List (String × K)

variable {K : Type} [LinearOrderedField K]

/-- `std::map` insertion (`_toWrite[key] = value`): keep the association
list sorted by key, overwriting the value when the key is present. -/
def mapInsert (m : List (String × K)) (k : String) (v : K) : List (String × K) :=
  match m with
  | [] => [(k, v)]
  | (k0, v0) :: rest =>
    if k < k0 then (k, v) :: (k0, v0) :: rest
    else if k = k0 then (k, v) :: rest
    else (k0, v0) :: mapInsert rest k v

/-- Lookup of a key in the association list (observer used by the
specification theorems). -/
def mapFind (m : List (String × K)) (k : String) : Option K :=
  match m with
  | [] => none
  | (k0, v) :: rest => if k0 = k then some v else mapFind rest k

/-- The jet quality cut of line 71: `Cuts::abseta < 2.0 && Cuts::pT > 20*GeV`. -/
def qualifies (j : Jet K) : Bool :=
  decide (|j.eta| < 2 ∧ 20 < j.pT)

/-- Descending transverse-momentum order used by `jetsByPt`. -/
def ptDesc (a b : Jet K) : Prop := b.pT ≤ a.pT

instance : DecidableRel (α := Jet K) ptDesc :=
  fun a b => (inferInstance : Decidable (b.pT ≤ a.pT))

instance : IsTotal (Jet K) ptDesc :=
  ⟨fun a b => le_total b.pT a.pT⟩

instance : IsTrans (Jet K) ptDesc :=
  ⟨fun _ _ _ h1 h2 => le_trans h2 h1⟩

/-- The framework call of line 71:
`apply<FastJets>(event, "Jets").jetsByPt(Cuts::abseta < 2.0 && Cuts::pT > 20*GeV)`
returns the jets passing the cuts, ordered by descending pT. -/
def jetsByPt (e : Event K) : List (Jet K) :=
  List.insertionSort ptDesc (e.jets.filter qualifies)

/-- The back-to-back test of lines 82-83:
`ang = fabs(j1.phi - j.phi); fabs(ang - PI) < PI/8`. -/
def backToBack (PI : K) (j1 j : Jet K) : Bool :=
  decide (|(|j1.phi - j.phi|) - PI| < PI / 8)

/-- Lines 62-68: if the event has heavy-ion metadata, store
`event_plane_angle()` as `Polar` and `eccentricity()` as `JProdR`. -/
def hionWrite (e : Event K) (m : List (String × K)) : List (String × K) :=
  match e.hion with
  | some h => mapInsert (mapInsert m "Polar" h.event_plane_angle) "JProdR" h.eccentricity
  | none => m

/-- Lines 94-103: the five per-jet-pair fields written on acceptance. -/
def jetWrites (PI : K) (j1 j2 : Jet K) (m : List (String × K)) : List (String × K) :=
  mapInsert (mapInsert (mapInsert (mapInsert (mapInsert m
    "Jet1_pT" j1.pT)
    "Jet2_pT" j2.pT)
    "JetAngle" (|j1.phi - j2.phi| * 180 / PI))
    "Jet1_Ang" j1.phi)
    "Aj" ((j1.pT - j2.pT) / (j1.pT + j2.pT))

/-- Lines 146-175, `print(bool var = false)`: a no-op when the file is not
open; with `var = true` writes the field names of `_toWrite`, otherwise
writes its field values. -/
def print (var : Bool) (s : AnalysisState K) : AnalysisState K :=
  if s._open = false then s
  else if var then
    { s with _file := s._file ++ [Line.header (s._toWrite.map Prod.fst)] }
  else
    { s with _file := s._file ++ [Line.row (s._toWrite.map Prod.snd)] }

/-- Lines 110-122: store the event weight, print the header on the first
accepted event, bump `_eventNumber` and print the row. -/
def finishEvent (e : Event K) (s : AnalysisState K) : AnalysisState K :=
  let s1 := { s with _toWrite := mapInsert s._toWrite "Weight" (e.weights.headD 0) }
  let s2 := if s1._firstPrint then { print true s1 with _firstPrint := false } else s1
  let s3 := { s2 with _eventNumber := s2._eventNumber + 1 }
  print false s3

/-- Lines 59-128, `analyze(const Event&)`: heavy-ion fields, the jet cuts,
the `pT < 80` veto, the back-to-back scan (`vetoEvent` = return with the
state as modified so far), and on acceptance the field writes and printing. -/
def analyze (PI : K) (e : Event K) (s : AnalysisState K) : AnalysisState K :=
  let s1 := { s with _toWrite := hionWrite e s._toWrite }
  match jetsByPt e with
  | j1 :: jb :: rest =>
    if j1.pT < 80 then s1
    else
      match (j1 :: jb :: rest).find? (fun j => backToBack PI j1 j) with
      | none => s1
      | some j2 => finishEvent e { s1 with _toWrite := jetWrites PI j1 j2 s1._toWrite }
  | _ => s1

/-- Lines 22-56, `init()`: fresh counters, empty map, and the attempt to
open the output file; on failure a single `[WARNING]` is issued and
`_open` is false. -/
def init (openOk : Bool) : AnalysisState K :=
  { _open := openOk, warnings := if openOk then 0 else 1,
    _file := [], _eventNumber := 0, _firstPrint := true, _toWrite := [] }

/-- Lines 131-143, `finalize()`: close the file if it was open. -/
def finalize (s : AnalysisState K) : AnalysisState K :=
  if s._open then { s with _open := false } else s

/-- A whole run: `init`, then `analyze` on each event in order. -/
def run (PI : K) (es : List (Event K)) (openOk : Bool) : AnalysisState K :=
  es.foldl (fun s e => analyze PI e s) (init openOk)

/-- The acceptance predicate of `analyze`, read off lines 71-92: at least
two qualifying jets, leading jet `pT ≥ 80`, and some jet back-to-back with
the leading jet. -/
def accepted (PI : K) (e : Event K) : Bool :=
  match jetsByPt e with
  | j1 :: jb :: rest =>
    if j1.pT < 80 then false
    else ((j1 :: jb :: rest).find? (fun j => backToBack PI j1 j)).isSome
  | _ => false

/-! ### Association-list (std::map) lemmas -/

theorem mapFind_mapInsert_self (m : List (String × K)) (k : String) (v : K) :
    mapFind (mapInsert m k v) k = some v := by
  induction m with
  | nil => simp [mapInsert, mapFind]
  | cons p rest ih =>
    obtain ⟨k0, v0⟩ := p
    simp only [mapInsert]
    split_ifs with h1 h2
    · simp [mapFind]
    · simp [mapFind]
    · have h3 : ¬ k0 = k := fun h => h2 h.symm
      simp only [mapFind, if_neg h3]
      exact ih

theorem mapFind_mapInsert_ne (m : List (String × K)) (k k' : String) (v : K)
    (hne : k' ≠ k) : mapFind (mapInsert m k' v) k = mapFind m k := by
  induction m with
  | nil => simp [mapInsert, mapFind, hne]
  | cons p rest ih =>
    obtain ⟨k0, v0⟩ := p
    simp only [mapInsert]
    split_ifs with h1 h2
    · simp only [mapFind, if_neg hne]
    · subst h2
      simp only [mapFind, if_neg hne]
    · simp only [mapFind]
      rw [ih]

theorem mem_keys_mapInsert (m : List (String × K)) (k x : String) (v : K)
    (hx : x ∈ (mapInsert m k v).map Prod.fst) :
    x = k ∨ x ∈ m.map Prod.fst := by
  induction m with
  | nil =>
    simp only [mapInsert, List.map_cons, List.map_nil, List.mem_cons,
      List.not_mem_nil, or_false] at hx
    exact Or.inl hx
  | cons p rest ih =>
    obtain ⟨k0, v0⟩ := p
    simp only [mapInsert] at hx
    split_ifs at hx with h1 h2
    · simp only [List.map_cons, List.mem_cons] at hx ⊢
      tauto
    · subst h2
      simp only [List.map_cons, List.mem_cons] at hx ⊢
      tauto
    · simp only [List.map_cons, List.mem_cons] at hx ⊢
      rcases hx with rfl | hx
      · exact Or.inr (Or.inl rfl)
      · rcases ih hx with h | h
        · exact Or.inl h
        · exact Or.inr (Or.inr h)

theorem keys_sorted_mapInsert (m : List (String × K)) (k : String) (v : K)
    (h : List.Pairwise (· < ·) (m.map Prod.fst)) :
    List.Pairwise (· < ·) ((mapInsert m k v).map Prod.fst) := by
  induction m with
  | nil => simp [mapInsert]
  | cons p rest ih =>
    obtain ⟨k0, v0⟩ := p
    simp only [List.map_cons, List.pairwise_cons] at h
    obtain ⟨hk0, hrest⟩ := h
    simp only [mapInsert]
    split_ifs with h1 h2
    · simp only [List.map_cons, List.pairwise_cons]
      refine ⟨?_, ?_, hrest⟩
      · intro x hx
        simp only [List.mem_cons] at hx
        rcases hx with rfl | hx
        · exact h1
        · exact lt_trans h1 (hk0 x hx)
      · intro x hx
        exact hk0 x hx
    · subst h2
      simp only [List.map_cons, List.pairwise_cons]
      exact ⟨hk0, hrest⟩
    · have hk0k : k0 < k := lt_of_le_of_ne (not_lt.1 h1) (Ne.symm h2)
      simp only [List.map_cons, List.pairwise_cons]
      refine ⟨?_, ih hrest⟩
      intro x hx
      rcases mem_keys_mapInsert rest k x v hx with rfl | hx
      · exact hk0k
      · exact hk0 x hx

theorem keys_sorted_hionWrite (e : Event K) (m : List (String × K))
    (h : List.Pairwise (· < ·) (m.map Prod.fst)) :
    List.Pairwise (· < ·) ((hionWrite e m).map Prod.fst) := by
  cases hh : e.hion with
  | none => simp only [hionWrite, hh]; exact h
  | some hi =>
    simp only [hionWrite, hh]
    exact keys_sorted_mapInsert _ _ _ (keys_sorted_mapInsert _ _ _ h)

theorem keys_sorted_jetWrites (PI : K) (j1 j2 : Jet K) (m : List (String × K))
    (h : List.Pairwise (· < ·) (m.map Prod.fst)) :
    List.Pairwise (· < ·) ((jetWrites PI j1 j2 m).map Prod.fst) := by
  simp only [jetWrites]
  exact keys_sorted_mapInsert _ _ _ (keys_sorted_mapInsert _ _ _
    (keys_sorted_mapInsert _ _ _ (keys_sorted_mapInsert _ _ _
      (keys_sorted_mapInsert _ _ _ h))))

/-! ### find? decomposition -/

theorem find?_eq_some_split {α : Type} (p : α → Bool) :
    ∀ (l : List α) (a : α), l.find? p = some a →
      ∃ l1 l2, l = l1 ++ a :: l2 ∧ ∀ x ∈ l1, p x = false := by
  intro l
  induction l with
  | nil => intro a h; simp [List.find?] at h
  | cons b t ih =>
    intro a h
    by_cases hb : p b
    · rw [List.find?_cons_of_pos _ hb] at h
      obtain rfl : b = a := by simpa using h
      exact ⟨[], t, by simp⟩
    · rw [List.find?_cons_of_neg _ (by simpa using hb)] at h
      obtain ⟨l1, l2, rfl, hl1⟩ := ih a h
      refine ⟨b :: l1, l2, by simp, ?_⟩
      intro x hx
      rcases List.mem_cons.1 hx with rfl | hx
      · simpa using hb
      · exact hl1 x hx

/-! ### Equation lemmas for `accepted` and `analyze` -/

theorem accepted_nil (PI : K) (e : Event K) (hj : jetsByPt e = []) :
    accepted PI e = false := by
  unfold accepted; rw [hj]

theorem accepted_single (PI : K) (e : Event K) (j : Jet K)
    (hj : jetsByPt e = [j]) : accepted PI e = false := by
  unfold accepted; rw [hj]

theorem accepted_cons (PI : K) (e : Event K) (j1 jb : Jet K) (rest : List (Jet K))
    (hj : jetsByPt e = j1 :: jb :: rest) :
    accepted PI e =
      if j1.pT < 80 then false
      else ((j1 :: jb :: rest).find? (fun j => backToBack PI j1 j)).isSome := by
  unfold accepted; rw [hj]

theorem analyze_nil (PI : K) (e : Event K) (s : AnalysisState K)
    (hj : jetsByPt e = []) :
    analyze PI e s = { s with _toWrite := hionWrite e s._toWrite } := by
  unfold analyze; rw [hj]

theorem analyze_single (PI : K) (e : Event K) (s : AnalysisState K) (j : Jet K)
    (hj : jetsByPt e = [j]) :
    analyze PI e s = { s with _toWrite := hionWrite e s._toWrite } := by
  unfold analyze; rw [hj]

theorem analyze_cons (PI : K) (e : Event K) (s : AnalysisState K)
    (j1 jb : Jet K) (rest : List (Jet K))
    (hj : jetsByPt e = j1 :: jb :: rest) :
    analyze PI e s =
      if j1.pT < 80 then { s with _toWrite := hionWrite e s._toWrite }
      else
        match (j1 :: jb :: rest).find? (fun j => backToBack PI j1 j) with
        | none => { s with _toWrite := hionWrite e s._toWrite }
        | some j2 =>
          finishEvent e
            { s with _toWrite := jetWrites PI j1 j2 (hionWrite e s._toWrite) } := by
  unfold analyze; rw [hj]

/-! ### Case analysis of `analyze` -/

theorem analyze_rejected (PI : K) (e : Event K) (s : AnalysisState K)
    (h : accepted PI e = false) :
    analyze PI e s = { s with _toWrite := hionWrite e s._toWrite } := by
  cases hj : jetsByPt e with
  | nil => exact analyze_nil PI e s hj
  | cons j1 tail =>
    cases tail with
    | nil => exact analyze_single PI e s j1 hj
    | cons jb rest =>
      rw [accepted_cons PI e j1 jb rest hj] at h
      rw [analyze_cons PI e s j1 jb rest hj]
      by_cases h80 : j1.pT < 80
      · rw [if_pos h80]
      · rw [if_neg h80] at h ⊢
        cases hf : (j1 :: jb :: rest).find? (fun j => backToBack PI j1 j) with
        | none => rfl
        | some j2 => rw [hf] at h; simp at h

theorem analyze_accepted (PI : K) (e : Event K) (s : AnalysisState K)
    (h : accepted PI e = true) :
    ∃ j1 jb rest j2 m,
      jetsByPt e = j1 :: jb :: rest ∧
      ¬ j1.pT < 80 ∧
      (j1 :: jb :: rest).find? (fun j => backToBack PI j1 j) = some j2 ∧
      m = mapInsert (jetWrites PI j1 j2 (hionWrite e s._toWrite)) "Weight"
            (e.weights.headD 0) ∧
      analyze PI e s =
        { _open := s._open
          warnings := s.warnings
          _file := s._file ++
            (if s._open then
              (if s._firstPrint then
                [Line.header (m.map Prod.fst), Line.row (m.map Prod.snd)]
              else [Line.row (m.map Prod.snd)])
            else [])
          _eventNumber := s._eventNumber + 1
          _firstPrint := false
          _toWrite := m } := by
  cases hj : jetsByPt e with
  | nil => rw [accepted_nil PI e hj] at h; simp at h
  | cons j1 tail =>
    cases tail with
    | nil => rw [accepted_single PI e j1 hj] at h; simp at h
    | cons jb rest =>
      rw [accepted_cons PI e j1 jb rest hj] at h
      by_cases h80 : j1.pT < 80
      · rw [if_pos h80] at h; simp at h
      · rw [if_neg h80] at h
        cases hf : (j1 :: jb :: rest).find? (fun j => backToBack PI j1 j) with
        | none => rw [hf] at h; simp at h
        | some j2 =>
          refine ⟨j1, jb, rest, j2, _, rfl, h80, hf, rfl, ?_⟩
          rw [analyze_cons PI e s j1 jb rest hj, if_neg h80, hf]
          obtain ⟨o, w, f, n, fp, tw⟩ := s
          cases o <;> cases fp <;>
            simp [finishEvent, print]

/-! ### Run invariants -/

theorem run_invariant (PI : K) (P : AnalysisState K → Prop)
    (step : ∀ s e, P s → P (analyze PI e s)) :
    ∀ (es : List (Event K)) (s : AnalysisState K), P s →
      P (es.foldl (fun s e => analyze PI e s) s) := by
  intro es
  induction es with
  | nil => intro s hs; exact hs
  | cons e t ih => intro s hs; exact ih _ (step s e hs)

theorem analyze_preserves_open (PI : K) (e : Event K) (s : AnalysisState K) :
    (analyze PI e s)._open = s._open := by
  cases h : accepted PI e with
  | false => rw [analyze_rejected PI e s h]
  | true =>
    obtain ⟨j1, jb, rest, j2, m, hj, h80, hf, hm, heq⟩ := analyze_accepted PI e s h
    rw [heq]

theorem analyze_preserves_warnings (PI : K) (e : Event K) (s : AnalysisState K) :
    (analyze PI e s).warnings = s.warnings := by
  cases h : accepted PI e with
  | false => rw [analyze_rejected PI e s h]
  | true =>
    obtain ⟨j1, jb, rest, j2, m, hj, h80, hf, hm, heq⟩ := analyze_accepted PI e s h
    rw [heq]

theorem analyze_keys_sorted (PI : K) (e : Event K) (s : AnalysisState K)
    (h : List.Pairwise (· < ·) (s._toWrite.map Prod.fst)) :
    List.Pairwise (· < ·) ((analyze PI e s)._toWrite.map Prod.fst) := by
  cases hacc : accepted PI e with
  | false =>
    rw [analyze_rejected PI e s hacc]
    exact keys_sorted_hionWrite e _ h
  | true =>
    obtain ⟨j1, jb, rest, j2, m, hj, h80, hf, hm, heq⟩ := analyze_accepted PI e s hacc
    rw [heq]
    subst hm
    exact keys_sorted_mapInsert _ _ _
      (keys_sorted_jetWrites PI j1 j2 _ (keys_sorted_hionWrite e _ h))

/-! ### Concrete test events -/

/-- The event of the spec's worked example: a leading jet with
`pT = 100 GeV` at `phi = 0` and a second jet with `pT = 60 GeV` at
`phi = PI` (exactly back-to-back), unit event weight, no heavy-ion
metadata. -/
def evC4 (PI : K) : Event K :=
  ⟨none, [⟨100, 0, 0⟩, ⟨60, 0, PI⟩], [1]⟩

/-- The same two jets together with heavy-ion metadata, so that an accepted
event populates all eight fields. -/
def evFull (PI : K) : Event K :=
  ⟨some ⟨1/2, 7/10⟩, [⟨100, 0, 0⟩, ⟨60, 0, PI⟩], [1]⟩

/-- An event with heavy-ion metadata and no jets at all: rejected, but the
heavy-ion fields are written into the member map before the veto. -/
def evHion : Event K :=
  ⟨some ⟨1/2, 7/10⟩, [], []⟩

/-- Two qualifying jets whose leading jet has `pT = 50 < 80`. -/
def evLowPt : Event K :=
  ⟨none, [⟨50, 0, 0⟩, ⟨30, 0, 0⟩], [1]⟩

/-- Two qualifying hard jets that are collinear (`phi = 0` for both), so
no jet is back-to-back with the leading jet. -/
def evColl : Event K :=
  ⟨none, [⟨100, 0, 0⟩, ⟨90, 0, 0⟩], [1]⟩

/-- An event with no jets and unit weight. -/
def evNoJets : Event K :=
  ⟨none, [], [1]⟩

/-! ### Evaluation lemmas for the test events -/

theorem qualifies_mk (p η φ : K) (h : |η| < 2 ∧ 20 < p) :
    qualifies (⟨p, η, φ⟩ : Jet K) = true := by
  simp only [qualifies, decide_eq_true_eq]
  exact h

theorem jetsByPt_pair (p1 p2 φ1 φ2 : K) (h1 : 20 < p1) (h2 : 20 < p2)
    (h12 : p2 ≤ p1) :
    jetsByPt (⟨none, [⟨p1, 0, φ1⟩, ⟨p2, 0, φ2⟩], [1]⟩ : Event K) =
      [⟨p1, 0, φ1⟩, ⟨p2, 0, φ2⟩] := by
  have hq1 : qualifies (⟨p1, 0, φ1⟩ : Jet K) = true :=
    qualifies_mk _ _ _ ⟨by norm_num, h1⟩
  have hq2 : qualifies (⟨p2, 0, φ2⟩ : Jet K) = true :=
    qualifies_mk _ _ _ ⟨by norm_num, h2⟩
  have hr : ptDesc (⟨p1, 0, φ1⟩ : Jet K) ⟨p2, 0, φ2⟩ := h12
  simp [jetsByPt, List.filter_cons, hq1, hq2, List.insertionSort,
    List.orderedInsert, hr]

theorem jetsByPt_evC4 (PI : K) :
    jetsByPt (evC4 PI) = [⟨100, 0, 0⟩, ⟨60, 0, PI⟩] :=
  jetsByPt_pair 100 60 0 PI (by norm_num) (by norm_num) (by norm_num)

theorem jetsByPt_evFull (PI : K) :
    jetsByPt (evFull PI) = [⟨100, 0, 0⟩, ⟨60, 0, PI⟩] := by
  have hq1 : qualifies (⟨(100 : K), 0, 0⟩ : Jet K) = true :=
    qualifies_mk _ _ _ ⟨by norm_num, by norm_num⟩
  have hq2 : qualifies (⟨(60 : K), 0, PI⟩ : Jet K) = true :=
    qualifies_mk _ _ _ ⟨by norm_num, by norm_num⟩
  have hr : ptDesc (⟨(100 : K), 0, 0⟩ : Jet K) ⟨60, 0, PI⟩ := by
    show (60 : K) ≤ 100
    norm_num
  simp [jetsByPt, evFull, List.filter_cons, hq1, hq2, List.insertionSort,
    List.orderedInsert, hr]

theorem jetsByPt_evLowPt : jetsByPt (evLowPt : Event K) = [⟨50, 0, 0⟩, ⟨30, 0, 0⟩] :=
  jetsByPt_pair 50 30 0 0 (by norm_num) (by norm_num) (by norm_num)

theorem jetsByPt_evColl : jetsByPt (evColl : Event K) = [⟨100, 0, 0⟩, ⟨90, 0, 0⟩] :=
  jetsByPt_pair 100 90 0 0 (by norm_num) (by norm_num) (by norm_num)

theorem jetsByPt_evNoJets : jetsByPt (evNoJets : Event K) = [] := rfl

theorem jetsByPt_evHion : jetsByPt (evHion : Event K) = [] := rfl

theorem backToBack_self (PI : K) (hPI : 0 < PI) (j1 j : Jet K)
    (hphi : j1.phi = j.phi) : backToBack PI j1 j = false := by
  simp only [backToBack, decide_eq_false_iff_not, not_lt, hphi]
  rw [sub_self, abs_zero, zero_sub, abs_neg, abs_of_pos hPI]
  linarith

theorem backToBack_opposite (PI : K) (hPI : 0 < PI) (j1 j : Jet K)
    (h1 : j1.phi = 0) (h2 : j.phi = PI) : backToBack PI j1 j = true := by
  simp only [backToBack, decide_eq_true_eq, h1, h2]
  rw [zero_sub, abs_neg, abs_of_pos hPI, sub_self, abs_zero]
  positivity

theorem find_evC4 (PI : K) (hPI : 0 < PI) :
    ([⟨100, 0, 0⟩, ⟨60, 0, PI⟩] : List (Jet K)).find?
      (fun j => backToBack PI ⟨100, 0, 0⟩ j) = some ⟨60, 0, PI⟩ := by
  rw [List.find?_cons_of_neg, List.find?_cons_of_pos]
  · exact backToBack_opposite PI hPI _ _ rfl rfl
  · rw [backToBack_self PI hPI _ _ rfl]
    simp

theorem accepted_evC4 (PI : K) (hPI : 0 < PI) : accepted PI (evC4 PI) = true := by
  rw [accepted_cons PI (evC4 PI) _ _ _ (jetsByPt_evC4 PI),
    if_neg (by norm_num : ¬ (100 : K) < 80), find_evC4 PI hPI]
  rfl

theorem accepted_evHion (PI : K) : accepted PI (evHion : Event K) = false :=
  accepted_nil PI evHion jetsByPt_evHion

theorem analyze_evHion (PI : K) :
    analyze PI (evHion : Event K) (init true) =
      { _open := true, warnings := 0, _file := [], _eventNumber := 0,
        _firstPrint := true,
        _toWrite := [("JProdR", 7/10), ("Polar", 1/2)] } := by
  rw [analyze_nil PI evHion (init true) jetsByPt_evHion]
  simp +decide [init, evHion, hionWrite, mapInsert]

theorem analyze_evC4 (PI : K) (hPI : 0 < PI) :
    analyze PI (evC4 PI) (init true) =
      { _open := true, warnings := 0,
        _file := [Line.header ["Aj", "Jet1_Ang", "Jet1_pT", "Jet2_pT", "JetAngle", "Weight"],
                  Line.row [1/4, 0, 100, 60, 180, 1]],
        _eventNumber := 1, _firstPrint := false,
        _toWrite := [("Aj", 1/4), ("Jet1_Ang", 0), ("Jet1_pT", 100),
                     ("Jet2_pT", 60), ("JetAngle", 180), ("Weight", 1)] } := by
  have hAngle : |PI| * 180 / PI = 180 := by
    rw [abs_of_pos hPI]
    exact mul_div_cancel_left₀ 180 (ne_of_gt hPI)
  rw [analyze_cons PI (evC4 PI) (init true) _ _ _ (jetsByPt_evC4 PI),
    if_neg (by norm_num : ¬ (100 : K) < 80), find_evC4 PI hPI]
  simp +decide [finishEvent, print, jetWrites, mapInsert, hionWrite, evC4, init, hAngle]
  all_goals norm_num

theorem run_evFull (PI : K) (hPI : 0 < PI) :
    run PI [evFull PI] true =
      { _open := true, warnings := 0,
        _file := [Line.header ["Aj", "JProdR", "Jet1_Ang", "Jet1_pT",
                               "Jet2_pT", "JetAngle", "Polar", "Weight"],
                  Line.row [1/4, 7/10, 0, 100, 60, 180, 1/2, 1]],
        _eventNumber := 1, _firstPrint := false,
        _toWrite := [("Aj", 1/4), ("JProdR", 7/10), ("Jet1_Ang", 0),
                     ("Jet1_pT", 100), ("Jet2_pT", 60), ("JetAngle", 180),
                     ("Polar", 1/2), ("Weight", 1)] } := by
  have hAngle : |PI| * 180 / PI = 180 := by
    rw [abs_of_pos hPI]
    exact mul_div_cancel_left₀ 180 (ne_of_gt hPI)
  show analyze PI (evFull PI) (init true) = _
  rw [analyze_cons PI (evFull PI) (init true) _ _ _ (jetsByPt_evFull PI),
    if_neg (by norm_num : ¬ (100 : K) < 80), find_evC4 PI hPI]
  simp +decide [finishEvent, print, jetWrites, mapInsert, hionWrite, evFull, init, hAngle]
  all_goals norm_num

theorem mem_jetsByPt (e : Event K) (j : Jet K) (hj : j ∈ jetsByPt e) :
    |j.eta| < 2 ∧ 20 < j.pT := by
  have h1 : j ∈ e.jets.filter qualifies := by
    simpa [jetsByPt] using hj
  have h2 := (List.mem_filter.1 h1).2
  simpa [qualifies] using h2

theorem jetsByPt_sorted (e : Event K) : List.Sorted ptDesc (jetsByPt e) :=
  List.sorted_insertionSort ptDesc _

theorem self_phi_not_btb (PI : K) (hPI : 0 < PI) (φ : K) :
    ¬ (|(|φ - φ|) - PI| < PI / 8) := by
  rw [sub_self, abs_zero, zero_sub, abs_neg, abs_of_pos hPI]
  linarith

/-! ### The claims -/

/-- C2, counterexample: the Record accumulator is not created fresh per
event: the concrete rejected event `evHion` (heavy-ion metadata, no jets)
emits no row, yet it leaves `Polar` and `JProdR` behind in `_toWrite`,
so rejection does not leave the accumulator state unchanged. -/
theorem claim_C2_counterexample :
    (analyze Real.pi (evHion : Event ℝ) (init true))._toWrite ≠
      (init true : AnalysisState ℝ)._toWrite ∧
    (analyze Real.pi (evHion : Event ℝ) (init true))._file =
      (init true : AnalysisState ℝ)._file := by
  rw [analyze_evHion Real.pi]
  exact ⟨by simp [init], rfl⟩

/-- C2, amended: the accumulator `_toWrite` is a persistent member reused
across events.  A rejected event emits no row and leaves every other part
of the state unchanged, but if it carries heavy-ion metadata it overwrites
the `Polar` and `JProdR` entries of the accumulator; a rejected event
without heavy-ion metadata leaves the state fully unchanged. -/
theorem claim_C2 (e : Event ℝ) (s : AnalysisState ℝ)
    (h : accepted Real.pi e = false) :
    analyze Real.pi e s = { s with _toWrite := hionWrite e s._toWrite } ∧
    (e.hion = none → analyze Real.pi e s = s) := by
  refine ⟨analyze_rejected Real.pi e s h, fun hh => ?_⟩
  rw [analyze_rejected Real.pi e s h]
  simp [hionWrite, hh]

/-- C2, witness: the amended statement applied to the concrete rejected
event `evHion` from the freshly initialised state. -/
theorem claim_C2_witness :
    accepted Real.pi (evHion : Event ℝ) = false ∧
    analyze Real.pi (evHion : Event ℝ) (init true) =
      { (init true : AnalysisState ℝ) with
          _toWrite := hionWrite evHion (init true : AnalysisState ℝ)._toWrite } :=
  ⟨accepted_evHion Real.pi,
   (claim_C2 evHion (init true) (accepted_evHion Real.pi)).1⟩

/-- C4, counterexample: for the spec's worked example (leading jet
`pT = 100` at `phi = 0`, second jet `pT = 60` at `phi = π`), the emitted
`Aj` value is not `0.2`: the code computes `(100 − 60)/(100 + 60) = 0.25`. -/
theorem claim_C4_counterexample :
    mapFind (analyze Real.pi (evC4 Real.pi) (init true))._toWrite "Aj" ≠
      some (0.2 : ℝ) := by
  rw [analyze_evC4 Real.pi Real.pi_pos]
  simp +decide [mapFind]
  norm_num

/-- C4, amended: for a leading jet with `pT = 100 GeV` at `phi = 0` and a
second jet with `pT = 60 GeV` at `phi = π`, the event is accepted and the
emitted record satisfies `Jet1_pT = 100`, `Jet2_pT = 60`, `Aj = 0.25`
(not `0.2`), `JetAngle = 180.0`, `Jet1_Ang = 0.0`. -/
theorem claim_C4 :
    accepted Real.pi (evC4 Real.pi) = true ∧
    mapFind (analyze Real.pi (evC4 Real.pi) (init true))._toWrite "Jet1_pT" =
      some 100 ∧
    mapFind (analyze Real.pi (evC4 Real.pi) (init true))._toWrite "Jet2_pT" =
      some 60 ∧
    mapFind (analyze Real.pi (evC4 Real.pi) (init true))._toWrite "Aj" =
      some (0.25 : ℝ) ∧
    mapFind (analyze Real.pi (evC4 Real.pi) (init true))._toWrite "JetAngle" =
      some 180 ∧
    mapFind (analyze Real.pi (evC4 Real.pi) (init true))._toWrite "Jet1_Ang" =
      some 0 := by
  refine ⟨accepted_evC4 Real.pi Real.pi_pos, ?_⟩
  rw [analyze_evC4 Real.pi Real.pi_pos]
  refine ⟨?_, ?_, ?_, ?_, ?_⟩ <;> simp +decide [mapFind] <;> norm_num

/-- C5: if the output sink fails to open at startup, exactly one warning is
reported, every write call on a closed sink is a no-op, zero lines are
written for the entire run, and the run (including `finalize`) still
completes. -/
theorem claim_C5 :
    (∀ (s : AnalysisState ℝ) (v : Bool), s._open = false → print v s = s) ∧
    ∀ es : List (Event ℝ),
      (finalize (run Real.pi es false))._file = [] ∧
      (finalize (run Real.pi es false)).warnings = 1 := by
  constructor
  · intro s v h
    simp [print, h]
  · intro es
    have main :=
      run_invariant Real.pi
        (fun s => s._open = false ∧ s._file = [] ∧ s.warnings = 1)
        (fun s e hs => by
          cases hacc : accepted Real.pi e with
          | false =>
            rw [analyze_rejected Real.pi e s hacc]
            exact hs
          | true =>
            obtain ⟨j1, jb, rest, j2, m, hj, h80, hf, hm, heq⟩ :=
              analyze_accepted Real.pi e s hacc
            rw [heq]
            refine ⟨hs.1, ?_, hs.2.2⟩
            rw [if_neg (by rw [hs.1]; simp), hs.2.1]
            rfl)
        es (init false) ⟨rfl, rfl, rfl⟩
    simp only [run, finalize] at main ⊢
    rw [if_neg (by rw [main.1]; simp)]
    exact main.2

/-- C5, witness: the no-op write and the zero-line run demonstrated on a
closed initial state and the one-event run `[evNoJets]`. -/
theorem claim_C5_witness :
    ((init false : AnalysisState ℝ)._open = false ∧
      print true (init false : AnalysisState ℝ) = init false) ∧
    (finalize (run Real.pi [evNoJets] false))._file = [] ∧
    (finalize (run Real.pi [evNoJets] false)).warnings = 1 :=
  ⟨⟨rfl, claim_C5.1 (init false) true rfl⟩, claim_C5.2 [evNoJets]⟩

/-- C6: for every event with fewer than 2 qualifying jets
(`pT > 20 GeV` and `|eta| < 2.0`), no line is written for that event. -/
theorem claim_C6 (e : Event ℝ) (s : AnalysisState ℝ)
    (h : (e.jets.filter qualifies).length < 2) :
    (analyze Real.pi e s)._file = s._file := by
  have hlen : (jetsByPt e).length < 2 := by
    rw [jetsByPt, List.length_insertionSort]
    exact h
  have hacc : accepted Real.pi e = false := by
    cases hj : jetsByPt e with
    | nil => exact accepted_nil _ e hj
    | cons a t =>
      cases t with
      | nil => exact accepted_single _ e a hj
      | cons b r => rw [hj] at hlen; simp at hlen; exfalso; omega
  rw [analyze_rejected _ e s hacc]

/-- C6, witness: the event with no jets at all is rejected and writes
nothing. -/
theorem claim_C6_witness :
    ((evNoJets : Event ℝ).jets.filter qualifies).length < 2 ∧
    (analyze Real.pi (evNoJets : Event ℝ) (init true))._file =
      (init true : AnalysisState ℝ)._file :=
  ⟨by norm_num [evNoJets], claim_C6 evNoJets (init true) (by norm_num [evNoJets])⟩

/-- C7: for every event whose highest-pT qualifying jet has `pT < 80 GeV`,
no line is written, even if two or more jets pass the eta and pT cuts. -/
theorem claim_C7 (e : Event ℝ) (s : AnalysisState ℝ) (j1 : Jet ℝ)
    (h1 : (jetsByPt e).head? = some j1) (h80 : j1.pT < 80) :
    (analyze Real.pi e s)._file = s._file := by
  have hacc : accepted Real.pi e = false := by
    cases hj : jetsByPt e with
    | nil => exact accepted_nil _ e hj
    | cons a t =>
      rw [hj] at h1
      obtain rfl : a = j1 := by simpa using h1
      cases t with
      | nil => exact accepted_single _ e a hj
      | cons b r => rw [accepted_cons _ e a b r hj, if_pos h80]
  rw [analyze_rejected _ e s hacc]

/-- C7, witness: two qualifying jets with leading `pT = 50 < 80` are
rejected and write nothing. -/
theorem claim_C7_witness :
    (jetsByPt (evLowPt : Event ℝ)).head? = some ⟨50, 0, 0⟩ ∧
    (⟨50, 0, 0⟩ : Jet ℝ).pT < 80 ∧
    (analyze Real.pi (evLowPt : Event ℝ) (init true))._file =
      (init true : AnalysisState ℝ)._file :=
  ⟨by rw [jetsByPt_evLowPt]; rfl, by norm_num,
   claim_C7 evLowPt (init true) ⟨50, 0, 0⟩ (by rw [jetsByPt_evLowPt]; rfl)
     (by norm_num)⟩

/-! ### Step lemmas for the run-wide invariants of C1 and C3 -/

theorem analyze_sorted_step (PI : K) (e : Event K) (s : AnalysisState K)
    (hs : List.Pairwise (· < ·) (s._toWrite.map Prod.fst) ∧
      ∀ ns, Line.header ns ∈ s._file → List.Pairwise (· < ·) ns) :
    List.Pairwise (· < ·) ((analyze PI e s)._toWrite.map Prod.fst) ∧
      ∀ ns, Line.header ns ∈ (analyze PI e s)._file →
        List.Pairwise (· < ·) ns := by
  cases hacc : accepted PI e with
  | false =>
    rw [analyze_rejected PI e s hacc]
    exact ⟨keys_sorted_hionWrite e _ hs.1, hs.2⟩
  | true =>
    obtain ⟨j1, jb, rest, j2, m, hj, h80, hf, hm, heq⟩ :=
      analyze_accepted PI e s hacc
    have hms : List.Pairwise (· < ·) (m.map Prod.fst) := by
      rw [hm]
      exact keys_sorted_mapInsert _ _ _
        (keys_sorted_jetWrites _ _ _ _ (keys_sorted_hionWrite e _ hs.1))
    rw [heq]
    refine ⟨hms, ?_⟩
    intro ns hns
    rcases List.mem_append.1 hns with h | h
    · exact hs.2 ns h
    · split_ifs at h with ho hfp
      · simp only [List.mem_cons, List.not_mem_nil, or_false] at h
        rcases h with h | h
        · obtain rfl : ns = m.map Prod.fst := by simpa using h
          exact hms
        · exact absurd h (by simp)
      · exact absurd h (by simp)
      · exact absurd h (by simp)

theorem analyze_shape_step (PI : K) (e : Event K) (s : AnalysisState K)
    (hs : s._open = true ∧
      (s._firstPrint = true → s._file = []) ∧
      (s._firstPrint = false →
        ∃ (m : List (String × K)) (rest : List (Line K)), s._file =
            Line.header (m.map Prod.fst) :: Line.row (m.map Prod.snd) :: rest ∧
          ∀ l ∈ rest, ∃ vs, l = Line.row vs)) :
    (analyze PI e s)._open = true ∧
      ((analyze PI e s)._firstPrint = true → (analyze PI e s)._file = []) ∧
      ((analyze PI e s)._firstPrint = false →
        ∃ (m : List (String × K)) (rest : List (Line K)),
          (analyze PI e s)._file =
            Line.header (m.map Prod.fst) :: Line.row (m.map Prod.snd) :: rest ∧
          ∀ l ∈ rest, ∃ vs, l = Line.row vs) := by
  cases hacc : accepted PI e with
  | false =>
    rw [analyze_rejected PI e s hacc]
    exact hs
  | true =>
    obtain ⟨j1, jb, rest, j2, m, hj, h80, hf, hm, heq⟩ :=
      analyze_accepted PI e s hacc
    rw [heq]
    refine ⟨hs.1, fun hfp => by simp at hfp, fun _ => ?_⟩
    cases hfp : s._firstPrint with
    | true =>
      have hfile : s._file = [] := hs.2.1 hfp
      refine ⟨m, [], ?_, by simp⟩
      simp [hs.1, hfp, hfile]
    | false =>
      obtain ⟨m0, rest0, hfeq, hrows⟩ := hs.2.2 hfp
      refine ⟨m0, rest0 ++ [Line.row (m.map Prod.snd)], ?_, ?_⟩
      · simp [hs.1, hfp, hfeq]
      · intro l hl
        rcases List.mem_append.1 hl with h | h
        · exact hrows l h
        · rw [List.mem_singleton] at h
          exact ⟨_, h⟩

/-- C1, counterexample: on a concrete run whose single accepted event
populates all eight fields, the header line is not in the claimed insertion
order `Polar, JProdR, Jet1_pT, Jet2_pT, JetAngle, Jet1_Ang, Aj, Weight`:
the `std::map` member iterates in sorted key order instead. -/
theorem claim_C1_counterexample :
    (run Real.pi [evFull Real.pi] true)._file.head? ≠
      some (Line.header ["Polar", "JProdR", "Jet1_pT", "Jet2_pT",
                         "JetAngle", "Jet1_Ang", "Aj", "Weight"]) := by
  rw [run_evFull Real.pi Real.pi_pos]
  simp +decide

/-- C1, amended: the output table's columns appear in the sorted
(alphabetical, `std::map` key order) field order, not in insertion order:
every header line ever written lists its field names in strictly increasing
string order, and for a run whose accepted event populates all eight
fields the header is exactly
`Aj, JProdR, Jet1_Ang, Jet1_pT, Jet2_pT, JetAngle, Polar, Weight`. -/
theorem claim_C1 :
    (∀ (es : List (Event ℝ)) (names : List String),
        Line.header names ∈ (run Real.pi es true)._file →
        List.Pairwise (· < ·) names) ∧
    (run Real.pi [evFull Real.pi] true)._file.head? =
      some (Line.header ["Aj", "JProdR", "Jet1_Ang", "Jet1_pT",
                         "Jet2_pT", "JetAngle", "Polar", "Weight"]) := by
  constructor
  · intro es names hmem
    have main :=
      run_invariant Real.pi
        (fun s => List.Pairwise (· < ·) (s._toWrite.map Prod.fst) ∧
          ∀ ns, Line.header ns ∈ s._file → List.Pairwise (· < ·) ns)
        (fun s e hs => analyze_sorted_step Real.pi e s hs)
        es (init true) ⟨by simp [init], by simp [init]⟩
    exact main.2 names hmem
  · rw [run_evFull Real.pi Real.pi_pos]
    rfl

/-- C1, witness: the amended statement applied to the concrete run
`[evFull]`: its header line is a member of the output and its names are
strictly sorted. -/
theorem claim_C1_witness :
    Line.header ["Aj", "JProdR", "Jet1_Ang", "Jet1_pT",
                 "Jet2_pT", "JetAngle", "Polar", "Weight"] ∈
      (run Real.pi [evFull Real.pi] true)._file ∧
    List.Pairwise (· < ·)
      ["Aj", "JProdR", "Jet1_Ang", "Jet1_pT",
       "Jet2_pT", "JetAngle", "Polar", "Weight"] :=
  ⟨by rw [run_evFull Real.pi Real.pi_pos]; simp,
   claim_C1.1 [evFull Real.pi] _
     (by rw [run_evFull Real.pi Real.pi_pos]; simp)⟩

/-- C3: for every run with an open sink, the header row is written exactly
once, before any data row, with the header and the first data row drawn
from the same record (same field set and order, that of the first accepted
event), and the header is never rewritten: every later output line is a
data row. -/
theorem claim_C3 (es : List (Event ℝ)) :
    (run Real.pi es true)._file = [] ∨
    ∃ (m : List (String × ℝ)) (rest : List (Line ℝ)),
      (run Real.pi es true)._file =
        Line.header (m.map Prod.fst) :: Line.row (m.map Prod.snd) :: rest ∧
      ∀ l ∈ rest, ∃ vs, l = Line.row vs := by
  have main :=
    run_invariant Real.pi
      (fun s => s._open = true ∧
        (s._firstPrint = true → s._file = []) ∧
        (s._firstPrint = false →
          ∃ (m : List (String × ℝ)) (rest : List (Line ℝ)), s._file =
              Line.header (m.map Prod.fst) :: Line.row (m.map Prod.snd) :: rest ∧
            ∀ l ∈ rest, ∃ vs, l = Line.row vs))
      (fun s e hs => analyze_shape_step Real.pi e s hs)
      es (init true) ⟨rfl, fun _ => rfl, by simp [init]⟩
  simp only [run]
  cases hfp : (es.foldl (fun s e => analyze Real.pi e s)
      (init true : AnalysisState ℝ))._firstPrint with
  | true => exact Or.inl (main.2.1 hfp)
  | false => exact Or.inr (main.2.2 hfp)

/-- C8: for every event in which no qualifying jet has an azimuthal
separation from the leading jet within `π/8` of `π` radians (in the code's
measure `| |phi1 − phi| − π | < π/8`), no line is written. -/
theorem claim_C8 (e : Event ℝ) (s : AnalysisState ℝ) (j1 : Jet ℝ)
    (h1 : (jetsByPt e).head? = some j1)
    (h2 : ∀ j ∈ jetsByPt e, ¬ (|(|j1.phi - j.phi|) - Real.pi| < Real.pi / 8)) :
    (analyze Real.pi e s)._file = s._file := by
  have hacc : accepted Real.pi e = false := by
    cases hj : jetsByPt e with
    | nil => exact accepted_nil _ e hj
    | cons a t =>
      rw [hj] at h1
      obtain rfl : a = j1 := by simpa using h1
      cases t with
      | nil => exact accepted_single _ e a hj
      | cons b r =>
        rw [accepted_cons _ e a b r hj]
        have hnone : (a :: b :: r).find?
            (fun j => backToBack Real.pi a j) = none := by
          rw [List.find?_eq_none]
          intro x hx
          simp only [backToBack, decide_eq_true_eq]
          exact h2 x (by rw [hj]; exact hx)
        rw [hnone]
        split_ifs <;> rfl
  rw [analyze_rejected _ e s hacc]

/-- C8, witness: two hard collinear jets (both at `phi = 0`): no jet is
back-to-back with the leading one, and nothing is written. -/
theorem claim_C8_witness :
    (jetsByPt (evColl : Event ℝ)).head? = some ⟨100, 0, 0⟩ ∧
    (∀ j ∈ jetsByPt (evColl : Event ℝ),
      ¬ (|(|(⟨100, 0, 0⟩ : Jet ℝ).phi - j.phi|) - Real.pi| < Real.pi / 8)) ∧
    (analyze Real.pi (evColl : Event ℝ) (init true))._file =
      (init true : AnalysisState ℝ)._file := by
  have hh : (jetsByPt (evColl : Event ℝ)).head? = some ⟨100, 0, 0⟩ := by
    rw [jetsByPt_evColl]; rfl
  have h2 : ∀ j ∈ jetsByPt (evColl : Event ℝ),
      ¬ (|(|(⟨100, 0, 0⟩ : Jet ℝ).phi - j.phi|) - Real.pi| < Real.pi / 8) := by
    rw [jetsByPt_evColl]
    intro j hj
    rcases List.mem_cons.1 hj with rfl | hj
    · exact self_phi_not_btb Real.pi Real.pi_pos 0
    · rw [List.mem_singleton] at hj
      subst hj
      exact self_phi_not_btb Real.pi Real.pi_pos 0
  exact ⟨hh, h2, claim_C8 evColl (init true) ⟨100, 0, 0⟩ hh h2⟩

/-- C9: for every accepted event, the selected `j2` is the first jet in the
descending-pT jet list whose azimuthal separation from the leading jet `j1`
passes the back-to-back test, its `pT` is what the record stores under
`Jet2_pT`, and `j1` itself is never selected: its self-separation of `0`
fails the angle check, so `j2 ≠ j1`. -/
theorem claim_C9 (e : Event ℝ) (s : AnalysisState ℝ) (j1 : Jet ℝ)
    (h1 : (jetsByPt e).head? = some j1)
    (hacc : accepted Real.pi e = true) :
    ∃ (j2 : Jet ℝ) (l1 l2 : List (Jet ℝ)),
      jetsByPt e = l1 ++ j2 :: l2 ∧
      backToBack Real.pi j1 j2 = true ∧
      (∀ j ∈ l1, backToBack Real.pi j1 j = false) ∧
      mapFind (analyze Real.pi e s)._toWrite "Jet2_pT" = some j2.pT ∧
      backToBack Real.pi j1 j1 = false ∧
      j2 ≠ j1 := by
  obtain ⟨j1', jb, rest, j2, m, hj, h80, hf, hm, heq⟩ :=
    analyze_accepted Real.pi e s hacc
  rw [hj] at h1
  obtain rfl : j1' = j1 := by simpa using h1
  obtain ⟨l1, l2, hsplit, hl1⟩ := find?_eq_some_split _ _ _ hf
  have hbtb : backToBack Real.pi j1' j2 = true := List.find?_some hf
  have hself : backToBack Real.pi j1' j1' = false :=
    backToBack_self Real.pi Real.pi_pos j1' j1' rfl
  refine ⟨j2, l1, l2, by rw [hj, hsplit], hbtb, hl1, ?_, hself, ?_⟩
  · rw [heq]
    show mapFind m "Jet2_pT" = some j2.pT
    rw [hm, jetWrites]
    rw [mapFind_mapInsert_ne _ _ _ _ (by simp)]
    rw [mapFind_mapInsert_ne _ _ _ _ (by simp)]
    rw [mapFind_mapInsert_ne _ _ _ _ (by simp)]
    rw [mapFind_mapInsert_ne _ _ _ _ (by simp)]
    exact mapFind_mapInsert_self _ _ _
  · intro h2eq
    rw [h2eq, hself] at hbtb
    exact Bool.noConfusion hbtb

/-- C9, witness: the accepted back-to-back event `evC4`: its found second
jet, the prefix of non-matching jets before it, the stored `Jet2_pT`, and
the fact that the leading jet fails its own angle check. -/
theorem claim_C9_witness :
    (jetsByPt (evC4 Real.pi)).head? = some ⟨100, 0, 0⟩ ∧
    accepted Real.pi (evC4 Real.pi) = true ∧
    ∃ (j2 : Jet ℝ) (l1 l2 : List (Jet ℝ)),
      jetsByPt (evC4 Real.pi) = l1 ++ j2 :: l2 ∧
      backToBack Real.pi ⟨100, 0, 0⟩ j2 = true ∧
      (∀ j ∈ l1, backToBack Real.pi ⟨100, 0, 0⟩ j = false) ∧
      mapFind (analyze Real.pi (evC4 Real.pi) (init true))._toWrite "Jet2_pT" =
        some j2.pT ∧
      backToBack Real.pi ⟨100, 0, 0⟩ ⟨100, 0, 0⟩ = false ∧
      j2 ≠ ⟨100, 0, 0⟩ := by
  have hh : (jetsByPt (evC4 Real.pi)).head? = some ⟨100, 0, 0⟩ := by
    rw [jetsByPt_evC4]; rfl
  exact ⟨hh, accepted_evC4 Real.pi Real.pi_pos,
    claim_C9 (evC4 Real.pi) (init true) ⟨100, 0, 0⟩ hh
      (accepted_evC4 Real.pi Real.pi_pos)⟩

/-- C10: for every accepted event the `Aj` division is well-defined: the
leading jet has `pT ≥ 80`, the selected second jet has `pT > 20` and is no
harder than the leading jet (the list is sorted by descending pT), so the
denominator `E1 + E2` is strictly positive and `0 ≤ Aj < 1`, where `Aj` is
exactly the value the record stores. -/
theorem claim_C10 (e : Event ℝ) (s : AnalysisState ℝ) (j1 : Jet ℝ)
    (h1 : (jetsByPt e).head? = some j1)
    (hacc : accepted Real.pi e = true) :
    ∃ (j2 : Jet ℝ), 80 ≤ j1.pT ∧ 20 < j2.pT ∧ j2.pT ≤ j1.pT ∧ 0 < j1.pT + j2.pT ∧
      mapFind (analyze Real.pi e s)._toWrite "Aj" =
        some ((j1.pT - j2.pT) / (j1.pT + j2.pT)) ∧
      0 ≤ (j1.pT - j2.pT) / (j1.pT + j2.pT) ∧
      (j1.pT - j2.pT) / (j1.pT + j2.pT) < 1 := by
  obtain ⟨j1', jb, rest, j2, m, hj, h80, hf, hm, heq⟩ :=
    analyze_accepted Real.pi e s hacc
  rw [hj] at h1
  obtain rfl : j1' = j1 := by simpa using h1
  have hmem : j2 ∈ jetsByPt e := by
    rw [hj]
    exact List.mem_of_find?_eq_some hf
  have h20 : 20 < j2.pT := (mem_jetsByPt e j2 hmem).2
  have hle : j2.pT ≤ j1'.pT := by
    have hsort := jetsByPt_sorted e
    rw [hj] at hsort
    rcases List.mem_cons.1 (List.mem_of_find?_eq_some hf) with rfl | h
    · exact le_refl _
    · exact List.rel_of_sorted_cons hsort j2 h
  have h80' : (80 : ℝ) ≤ j1'.pT := not_lt.1 h80
  have hden : 0 < j1'.pT + j2.pT := by linarith
  refine ⟨j2, h80', h20, hle, hden, ?_, ?_, ?_⟩
  · rw [heq]
    show mapFind m "Aj" = _
    rw [hm, jetWrites]
    rw [mapFind_mapInsert_ne _ _ _ _ (by simp)]
    exact mapFind_mapInsert_self _ _ _
  · exact div_nonneg (by linarith) hden.le
  · rw [div_lt_one hden]
    linarith

/-- C10, witness: the accepted event `evC4`, with `Aj = 40/160` strictly
inside `[0, 1)`. -/
theorem claim_C10_witness :
    (jetsByPt (evC4 Real.pi)).head? = some ⟨100, 0, 0⟩ ∧
    accepted Real.pi (evC4 Real.pi) = true ∧
    ∃ (j2 : Jet ℝ), (80 : ℝ) ≤ (⟨100, 0, 0⟩ : Jet ℝ).pT ∧ 20 < j2.pT ∧
      j2.pT ≤ (⟨100, 0, 0⟩ : Jet ℝ).pT ∧
      0 < (⟨100, 0, 0⟩ : Jet ℝ).pT + j2.pT ∧
      mapFind (analyze Real.pi (evC4 Real.pi) (init true))._toWrite "Aj" =
        some (((⟨100, 0, 0⟩ : Jet ℝ).pT - j2.pT) /
          ((⟨100, 0, 0⟩ : Jet ℝ).pT + j2.pT)) ∧
      0 ≤ ((⟨100, 0, 0⟩ : Jet ℝ).pT - j2.pT) /
          ((⟨100, 0, 0⟩ : Jet ℝ).pT + j2.pT) ∧
      ((⟨100, 0, 0⟩ : Jet ℝ).pT - j2.pT) /
          ((⟨100, 0, 0⟩ : Jet ℝ).pT + j2.pT) < 1 := by
  have hh : (jetsByPt (evC4 Real.pi)).head? = some ⟨100, 0, 0⟩ := by
    rw [jetsByPt_evC4]; rfl
  exact ⟨hh, accepted_evC4 Real.pi Real.pi_pos,
    claim_C10 (evC4 Real.pi) (init true) ⟨100, 0, 0⟩ hh
      (accepted_evC4 Real.pi Real.pi_pos)⟩

end GbiasInvestigatr
